import Mathlib

/-!
# Verification of the HOCDB Python binding

A shallow embedding of `bindings/python/hocdb_python.py`, the Python
client of the HOCDB time-series storage engine, together with theorems
settling the specification claims about it.

Modelling conventions:
* Python `bytes` are `List Nat`, one entry per byte (each `< 256` by
  construction of the encoders).
* Python floats are represented by their IEEE-754 bit pattern (a `Nat`
  below `2 ^ 64`): `struct.pack('<d', x)` / `struct.unpack('<d', b)`
  move exactly those eight bytes, so the byte-level codec is captured
  exactly without a real-number model of floating point.
* The C engine (`self.lib`) is not part of the repository; each binding
  method that calls into it takes the engine's answer (a status code or
  an optional result buffer) as an explicit argument, and additionally
  returns the list of engine calls it performed, so that claims about
  "no engine call is made" or "the buffer is freed exactly once" are
  statable.
* A raised Python exception is modelled as `Except.error msg`.
-/

set_option autoImplicit false

namespace Hocdb

/-! ## Little-endian byte primitives -/

/-- `w` little-endian bytes of `n` (the truncation `n % 2 ^ (8 * w)` is
what any fixed-width store keeps). -/
def leBytes : Nat → Nat → List Nat
  | 0, _ => []
  | w + 1, n => n % 256 :: leBytes w (n / 256)

/-- The value read back from a little-endian byte list. -/
def leVal : List Nat → Nat
  | [] => 0
  | b :: rest => b + 256 * leVal rest

@[simp] theorem leBytes_length (w n : Nat) : (leBytes w n).length = w := by
  induction w generalizing n with
  | zero => rfl
  | succ w ih => simp [leBytes, ih]

theorem mod_mul_decomp (n a b : Nat) : n % (a * b) = n % a + a * (n / a % b) := by
  rcases Nat.eq_zero_or_pos a with ha | ha
  · subst ha; simp
  rcases Nat.eq_zero_or_pos b with hb | hb
  · subst hb; simpa [Nat.mod_zero] using (Nat.mod_add_div n a).symm
  have h1 := Nat.div_add_mod n a
  have h2' : a * (b * (n / a / b) + n / a % b) = a * (n / a) := by
    rw [Nat.div_add_mod]
  rw [Nat.mul_add, ← Nat.mul_assoc] at h2'
  have key : n = a * b * (n / a / b) + (n % a + a * (n / a % b)) := by omega
  have hma : n % a < a := Nat.mod_lt _ ha
  have hmb : n / a % b < b := Nat.mod_lt _ hb
  have hb1 : a * (n / a % b) ≤ a * (b - 1) := Nat.mul_le_mul_left a (by omega)
  have hb2 : a * b = a * (b - 1) + a := by
    rcases b with _ | b'
    · omega
    · simp [Nat.mul_succ]
  conv_lhs => rw [key]
  rw [Nat.mul_add_mod]
  apply Nat.mod_eq_of_lt
  omega

theorem leVal_leBytes (w n : Nat) : leVal (leBytes w n) = n % 2 ^ (8 * w) := by
  induction w generalizing n with
  | zero => simp [leBytes, leVal, Nat.mod_one]
  | succ w ih =>
      have h : (2 : Nat) ^ (8 * (w + 1)) = 256 * 2 ^ (8 * w) := by
        rw [Nat.mul_succ, Nat.pow_add]; ring
      rw [leBytes, leVal, ih, h, mod_mul_decomp n 256 (2 ^ (8 * w))]

/-! ## Python values

`PyObj` covers the Python values the binding manipulates.  `f bits` is a
float given by its IEEE-754 bit pattern. -/

inductive PyObj where
  | i (v : Int)
  | f (bits : Nat)
  | b (v : Bool)
  | str (s : String)
  | list (vs : List PyObj)
  | tuple (vs : List PyObj)
  | dict (kvs : List (String × PyObj))
  | obj (kvs : List (String × PyObj))

/-- Python truthiness (`bool(x)`), used by `struct.pack('?', x)`.
`-0.0` (bit pattern `2 ^ 63`) is falsy like `+0.0`; a generic object is
truthy. -/
def PyObj.truthy : PyObj → Bool
  | .i v => v != 0
  | .f bits => !(bits == 0 || bits == 2 ^ 63)
  | .b v => v
  | .str s => s != ""
  | .list vs => !vs.isEmpty
  | .tuple vs => !vs.isEmpty
  | .dict kvs => !kvs.isEmpty
  | .obj _ => true

/-! ## Schema and record format (`FieldTypes`, `HOCDBField`,
`HOCDB._build_struct_format`, `struct.calcsize`) -/

/-- `HOCDBField`: a named column with its `FieldTypes` code
(`I64 = 1`, `F64 = 2`, `U64 = 3`, `BOOL = 6`). -/
structure Field where
  name : String
  type : Nat
deriving DecidableEq, Repr

/-- The `struct` format character chosen for one field type by
`_build_struct_format`; unknown codes raise `ValueError`. -/
def fmtCharOfCode (t : Nat) : Except String Char :=
  if t = 1 then .ok 'q'
  else if t = 2 then .ok 'd'
  else if t = 3 then .ok 'Q'
  else if t = 6 then .ok '?'
  else .error ("Unsupported field type: " ++ toString t)

def buildFmtChars : List Field → Except String (List Char)
  | [] => .ok []
  | f :: fs =>
      match fmtCharOfCode f.type with
      | .error e => .error e
      | .ok c =>
          match buildFmtChars fs with
          | .error e => .error e
          | .ok rest => .ok (c :: rest)

/-- `HOCDB._build_struct_format`: `"<"` followed by one format character
per field, in declaration order; raises on the first unknown field
type. -/
def _build_struct_format (schema : List Field) : Except String (List Char) :=
  (buildFmtChars schema).map (fun cs => '<' :: cs)

/-- `struct.calcsize` on a `"<"`-prefixed format: standard sizes, no
padding (`q`, `d`, `Q` are 8 bytes, `?` is 1 byte, the `<` marker is
free). -/
def charSize (c : Char) : Nat :=
  if c = 'q' ∨ c = 'd' ∨ c = 'Q' then 8
  else if c = '?' then 1
  else 0

def calcsize (fmt : List Char) : Nat := (fmt.map charSize).sum

/-- `self._record_size = struct.calcsize(self._struct_fmt)`.  A handle
only exists when `_build_struct_format` succeeded (`__init__` raises
otherwise), so the `error` branch is unreachable on a live handle. -/
def recordSizeOf (schema : List Field) : Nat :=
  match _build_struct_format schema with
  | .ok fmt => calcsize fmt
  | .error _ => 0

/-- Byte width of one field, read off the format character table. -/
def codeWidth (t : Nat) : Nat :=
  if t = 1 ∨ t = 2 ∨ t = 3 then 8 else if t = 6 then 1 else 0

/-- A schema every field of which has a known type code. -/
def validSchema (schema : List Field) : Bool :=
  schema.all fun f => f.type = 1 ∨ f.type = 2 ∨ f.type = 3 ∨ f.type = 6

@[simp] theorem charSize_marker : charSize '<' = 0 := rfl

theorem buildFmtChars_valid {schema : List Field} (h : validSchema schema = true) :
    ∃ cs, buildFmtChars schema = .ok cs ∧ cs.map charSize = schema.map (fun f => codeWidth f.type) := by
  induction schema with
  | nil => exact ⟨[], rfl, rfl⟩
  | cons f fs ih =>
      simp only [validSchema, List.all_cons, Bool.and_eq_true, decide_eq_true_eq] at h
      obtain ⟨cs, hcs, hmap⟩ := ih h.2
      obtain ⟨c, hc, hw⟩ : ∃ c, fmtCharOfCode f.type = .ok c ∧ charSize c = codeWidth f.type := by
        rcases h.1 with h1 | h1 | h1 | h1 <;> rw [h1] <;> exact ⟨_, rfl, rfl⟩
      refine ⟨c :: cs, ?_, by simp [hw, hmap]⟩
      simp only [buildFmtChars, hc, hcs]

theorem recordSizeOf_valid {schema : List Field} (h : validSchema schema = true) :
    recordSizeOf schema = (schema.map (fun f => codeWidth f.type)).sum := by
  obtain ⟨cs, hcs, hmap⟩ := buildFmtChars_valid h
  simp [recordSizeOf, _build_struct_format, hcs, Except.map, calcsize, hmap]

/-! ## Per-field encoding (`create_record_bytes`)

`create_record_bytes` coerces each value (`int(value)`, `float(value)`,
`bool(value)`) and packs it with `struct.pack` on a single-field
little-endian format.  The numeric cross-type coercions `int(float)`
(truncation toward zero) and `float(int)` (rounding to the nearest
double) are not modelled — no claim exercises them, and both are
outside a bit-pattern float model — so those inputs map to a model
error. -/

/-- IEEE-754 bit pattern of `1.0`, i.e. `float(True)`. -/
def oneBits : Nat := 0x3FF0000000000000

/-- `struct.pack('<q', int(value))`: in-range ints pack as 8-byte
little-endian two's complement; out-of-range raises `struct.error`;
`int()` of a bool gives 0/1. -/
def packCoerceI64 : PyObj → Except String (List Nat)
  | .i n =>
      if -(2 ^ 63 : Int) ≤ n ∧ n < 2 ^ 63 then .ok (leBytes 8 (n % (2 ^ 64 : Int)).toNat)
      else .error "argument out of range"
  | .b v => .ok (leBytes 8 (if v then 1 else 0))
  | _ => .error "unmodelled int() coercion"

/-- `struct.pack('<d', float(value))`: the eight bytes of the IEEE-754
bit pattern; `float()` of a bool gives `0.0` / `1.0`. -/
def packCoerceF64 : PyObj → Except String (List Nat)
  | .f bits => .ok (leBytes 8 bits)
  | .b v => .ok (leBytes 8 (if v then oneBits else 0))
  | _ => .error "unmodelled float() coercion"

/-- `struct.pack('<Q', int(value))`: unsigned 8-byte little-endian. -/
def packCoerceU64 : PyObj → Except String (List Nat)
  | .i n =>
      if 0 ≤ n ∧ n < 2 ^ 64 then .ok (leBytes 8 n.toNat)
      else .error "argument out of range"
  | .b v => .ok (leBytes 8 (if v then 1 else 0))
  | _ => .error "unmodelled int() coercion"

/-- One field of `create_record_bytes`: dispatch on the field type code
exactly as the source's `if`/`elif` chain does. -/
def createPackField (t : Nat) (v : PyObj) : Except String (List Nat)  :=
  if t = 1 then packCoerceI64 v
  else if t = 2 then packCoerceF64 v
  else if t = 3 then packCoerceU64 v
  else if t = 6 then .ok [if v.truthy then 1 else 0]
  else .error ("Unsupported field type: " ++ toString t)

/-- The field loop of `create_record_bytes`: bytes are concatenated in
declaration order, the first failing field raises.  `zip` stops at the
shorter list, but the caller has already checked equal lengths. -/
def createPackFields : List Field → List PyObj → Except String (List Nat)
  | [], _ => .ok []
  | _ :: _, [] => .ok []
  | f :: fs, v :: vs =>
      match createPackField f.type v with
      | .error e => .error e
      | .ok b =>
          match createPackFields fs vs with
          | .error e => .error e
          | .ok rest => .ok (b ++ rest)

/-- `create_record_bytes(schema, *values)`. -/
def create_record_bytes (schema : List Field) (values : List PyObj) :
    Except String (List Nat) :=
  if values.length ≠ schema.length then
    .error ("Number of values (" ++ toString values.length ++
      ") doesnt match schema length (" ++ toString schema.length ++ ")")
  else createPackFields schema values

/-! ## Bulk decoding (`HOCDB._unpack_records`) -/

/-- `struct.unpack` of one field from its byte slice: `q` is two's
complement, `Q` unsigned, `d` yields the float with those bits, `?` is
true on any nonzero byte.  Only the four validated codes can reach this
point on a live handle (the format was built at `__init__`). -/
def unpackField (t : Nat) (bs : List Nat) : PyObj :=
  if t = 1 then
    .i (if leVal bs < 2 ^ 63 then (leVal bs : Int) else (leVal bs : Int) - 2 ^ 64)
  else if t = 2 then .f (leVal bs)
  else if t = 3 then .i (leVal bs)
  else .b (leVal bs != 0)

/-- `struct.unpack(self._struct_fmt, chunk)`: fields decoded
sequentially, each consuming its own width, no padding. -/
def unpackChunk : List Field → List Nat → List PyObj
  | [], _ => []
  | f :: fs, bs =>
      unpackField f.type (bs.take (codeWidth f.type)) ::
        unpackChunk fs (bs.drop (codeWidth f.type))

/-- Insertion into a Python dict: an existing key keeps its position
and gets the new value, a new key is appended (dicts preserve insertion
order). -/
def dictInsert (d : List (String × PyObj)) (k : String) (v : PyObj) :
    List (String × PyObj) :=
  if d.any (fun p => p.1 = k) then
    d.map (fun p => if p.1 = k then (k, v) else p)
  else d ++ [(k, v)]

/-- `record = {}; for j, field in enumerate(self._schema): record[field.name] = values[j]`. -/
def buildRecord (schema : List Field) (values : List PyObj) :
    List (String × PyObj) :=
  (schema.zip values).foldl (fun d p => dictInsert d p.1.name p.2) []

/-- Decode one raw chunk into the dict the binding returns. -/
def decodeRecord (schema : List Field) (chunk : List Nat) :
    List (String × PyObj) :=
  buildRecord schema (unpackChunk schema chunk)

/-- The `for i in range(0, len(data), self._record_size)` loop of
`_unpack_records`: full chunks are decoded, a trailing chunk shorter
than the record size stops the loop. -/
def unpackLoop (schema : List Field) (data : List Nat)
    (hrs : 0 < recordSizeOf schema) : List (List (String × PyObj)) :=
  if data.length < recordSizeOf schema then []
  else
    decodeRecord schema (data.take (recordSizeOf schema)) ::
      unpackLoop schema (data.drop (recordSizeOf schema)) hrs
termination_by data.length
decreasing_by simp only [List.length_drop]; omega

/-- `HOCDB._unpack_records(data)`.  When the record size is zero (an
empty schema) Python's `range` raises `ValueError: range() arg 3 must
not be zero` before the first iteration; a live handle for any
\x7bnonempty\x7d schema never hits that branch. -/
def unpack_records (schema : List Field) (data : List Nat) :
    Except String (List (List (String × PyObj))) :=
  if hrs : 0 < recordSizeOf schema then .ok (unpackLoop schema data hrs)
  else .error "range() arg 3 must not be zero"

/-- Reference decomposition of a buffer into its records, written from
the claims' words: one decoded record per `record_width`-sized chunk,
consecutive from offset 0, in buffer order; a shorter final chunk is
dropped. -/
def chunkedRecords (schema : List Field) (data : List Nat) :
    List (List (String × PyObj)) :=
  (List.range (data.length / recordSizeOf schema)).map fun k =>
    decodeRecord schema ((data.drop (k * recordSizeOf schema)).take (recordSizeOf schema))

theorem unpackLoop_eq_chunked (schema : List Field)
    (hrs : 0 < recordSizeOf schema) :
    ∀ data : List Nat, unpackLoop schema data hrs = chunkedRecords schema data := by
  have H : ∀ (m : Nat) (data : List Nat), data.length = m →
      unpackLoop schema data hrs = chunkedRecords schema data := by
    intro m
    induction m using Nat.strong_induction_on with
    | _ m ih =>
      intro data hm
      rw [unpackLoop]
      split
      · rename_i hshort
        rw [chunkedRecords, Nat.div_eq_of_lt hshort]
        rfl
      · rename_i hlong
        push_neg at hlong
        have hdrop : (data.drop (recordSizeOf schema)).length
            = data.length - recordSizeOf schema := by simp
        have hrec := ih (data.length - recordSizeOf schema) (by omega) _ hdrop
        rw [hrec, chunkedRecords, chunkedRecords, hdrop]
        have hdiv : data.length / recordSizeOf schema
            = (data.length - recordSizeOf schema) / recordSizeOf schema + 1 := by
          rcases Nat.exists_eq_add_of_le hlong with ⟨k, hk⟩
          rw [hk, Nat.add_comm, Nat.add_sub_cancel, Nat.add_div_right _ hrs]
        rw [hdiv, List.range_succ_eq_map, List.map_cons, List.map_map]
        congr 1
        · rw [Nat.zero_mul, List.drop_zero]
        · apply List.map_congr_left
          intro k _
          simp only [Function.comp_apply, List.drop_drop]
          rw [show recordSizeOf schema + k * recordSizeOf schema
              = Nat.succ k * recordSizeOf schema from by rw [Nat.succ_mul]; omega]
  intro data
  exact H data.length data rfl

theorem unpack_records_eq_chunked {schema : List Field}
    (hrs : 0 < recordSizeOf schema) (data : List Nat) :
    unpack_records schema data = .ok (chunkedRecords schema data) := by
  rw [unpack_records, dif_pos hrs, unpackLoop_eq_chunked]

/-! ## Round trip of the codec -/

/-- A value representable in the field's type: an `Int64`-range int for
code 1, a 64-bit float pattern for code 2, a `UInt64`-range int for
code 3, a bool for code 6. -/
def wellTypedVal : Nat → PyObj → Bool
  | 1, .i n => decide (-(2 ^ 63 : Int) ≤ n) && decide (n < 2 ^ 63)
  | 2, .f bits => decide (bits < 2 ^ 64)
  | 3, .i n => decide (0 ≤ n) && decide (n < 2 ^ 64)
  | 6, .b _ => true
  | _, _ => false

/-- Pointwise well-typedness of a value tuple against a schema; forces
equal lengths. -/
def wellTypedList : List Field → List PyObj → Bool
  | [], [] => true
  | f :: fs, v :: vs => wellTypedVal f.type v && wellTypedList fs vs
  | _, _ => false

theorem wellTypedList_length {schema : List Field} {values : List PyObj}
    (h : wellTypedList schema values = true) : values.length = schema.length := by
  induction schema generalizing values with
  | nil => cases values with
    | nil => rfl
    | cons v vs => simp [wellTypedList] at h
  | cons f fs ih => cases values with
    | nil => simp [wellTypedList] at h
    | cons v vs =>
        simp only [wellTypedList, Bool.and_eq_true] at h
        simp [ih h.2]

theorem wellTypedVal_valid {t : Nat} {v : PyObj} (h : wellTypedVal t v = true) :
    t = 1 ∨ t = 2 ∨ t = 3 ∨ t = 6 := by
  by_contra hc
  push_neg at hc
  obtain ⟨h1, h2, h3, h6⟩ := hc
  unfold wellTypedVal at h
  split at h <;> simp_all

theorem wellTypedList_valid {schema : List Field} {values : List PyObj}
    (h : wellTypedList schema values = true) : validSchema schema = true := by
  induction schema generalizing values with
  | nil => rfl
  | cons f fs ih => cases values with
    | nil => simp [wellTypedList] at h
    | cons v vs =>
        simp only [wellTypedList, Bool.and_eq_true] at h
        simp only [validSchema, List.all_cons, Bool.and_eq_true, decide_eq_true_eq]
        exact ⟨wellTypedVal_valid h.1, ih h.2⟩

/-- One well-typed field value packs to exactly its width and decodes
back to itself. -/
theorem pow64_eq : (2 : Nat) ^ (8 * 8) = 2 ^ 64 := by norm_num

theorem leVal_leBytes8 (n : Nat) : leVal (leBytes 8 n) = n % 2 ^ 64 := by
  rw [leVal_leBytes, pow64_eq]

theorem field_round_trip {t : Nat} {v : PyObj} (h : wellTypedVal t v = true) :
    ∃ bs, createPackField t v = .ok bs ∧ bs.length = codeWidth t ∧
      unpackField t bs = v := by
  match t, v, h with
  | 1, .i n, h =>
      simp only [wellTypedVal, Bool.and_eq_true, decide_eq_true_eq] at h
      refine ⟨leBytes 8 (n % (2 ^ 64 : Int)).toNat, ?_, by simp [codeWidth], ?_⟩
      · simp only [createPackField, packCoerceI64, reduceIte]
        rw [if_pos]
        exact ⟨h.1, h.2⟩
      · have h1 : ((n % (2 ^ 64 : Int)).toNat : Int) = n % 2 ^ 64 :=
          Int.toNat_of_nonneg (Int.emod_nonneg n (by norm_num))
        have h3 : n % (2 ^ 64 : Int) < 2 ^ 64 := Int.emod_lt_of_pos n (by norm_num)
        have hmlt : (n % (2 ^ 64 : Int)).toNat < 2 ^ 64 := by omega
        have hv : leVal (leBytes 8 (n % (2 ^ 64 : Int)).toNat)
            = (n % (2 ^ 64 : Int)).toNat := by
          rw [leVal_leBytes8]
          exact Nat.mod_eq_of_lt hmlt
        simp only [unpackField, reduceIte, hv]
        congr 1
        split <;> omega
  | 2, .f bits, h =>
      simp only [wellTypedVal, decide_eq_true_eq] at h
      refine ⟨leBytes 8 bits, rfl, by simp [codeWidth], ?_⟩
      have hv : leVal (leBytes 8 bits) = bits := by
        rw [leVal_leBytes8]
        exact Nat.mod_eq_of_lt h
      simp [unpackField, hv]
  | 3, .i n, h =>
      simp only [wellTypedVal, Bool.and_eq_true, decide_eq_true_eq] at h
      refine ⟨leBytes 8 n.toNat, ?_, by simp [codeWidth], ?_⟩
      · show packCoerceU64 (.i n) = .ok (leBytes 8 n.toNat)
        simp only [packCoerceU64]
        rw [if_pos ⟨h.1, h.2⟩]
      · have hv : leVal (leBytes 8 n.toNat) = n.toNat := by
          rw [leVal_leBytes8]
          apply Nat.mod_eq_of_lt
          omega
        show PyObj.i ((leVal (leBytes 8 n.toNat) : Nat) : Int) = .i n
        rw [hv, Int.toNat_of_nonneg h.1]
  | 6, .b v, _ =>
      cases v
      · exact ⟨[0], rfl, rfl, rfl⟩
      · exact ⟨[1], rfl, rfl, rfl⟩

/-- The whole field loop of `create_record_bytes` round-trips through
`struct.unpack` on well-typed values. -/
theorem packFields_round_trip {schema : List Field} {values : List PyObj}
    (h : wellTypedList schema values = true) :
    ∃ bs, createPackFields schema values = .ok bs ∧
      bs.length = (schema.map (fun f => codeWidth f.type)).sum ∧
      unpackChunk schema bs = values := by
  induction schema generalizing values with
  | nil =>
      cases values with
      | nil => exact ⟨[], rfl, rfl, rfl⟩
      | cons v vs => simp [wellTypedList] at h
  | cons f fs ih =>
      cases values with
      | nil => simp [wellTypedList] at h
      | cons v vs =>
          simp only [wellTypedList, Bool.and_eq_true] at h
          obtain ⟨b, hb, hblen, hbdec⟩ := field_round_trip h.1
          obtain ⟨rest, hrest, hrestlen, hrestdec⟩ := ih h.2
          refine ⟨b ++ rest, ?_, ?_, ?_⟩
          · simp only [createPackFields, hb, hrest]
          · simp [hblen, hrestlen]
          · rw [unpackChunk, ← hblen, List.take_left, List.drop_left, hbdec, hrestdec]

/-! ## The record dict built by `_unpack_records` -/

theorem dictInsert_new {d : List (String × PyObj)} {k : String} (v : PyObj)
    (h : ∀ p ∈ d, p.1 ≠ k) : dictInsert d k v = d ++ [(k, v)] := by
  rw [dictInsert, if_neg]
  simp only [List.any_eq_true, decide_eq_true_eq, not_exists]
  intro p hp
  exact h p hp.1 hp.2

theorem buildRecord_gen (schema : List Field) (values : List PyObj)
    (hnd : (schema.map (fun f => f.name)).Nodup) :
    ∀ acc : List (String × PyObj),
      (∀ p ∈ acc, ∀ f ∈ schema, p.1 ≠ f.name) →
      (schema.zip values).foldl (fun d p => dictInsert d p.1.name p.2) acc
        = acc ++ (schema.map (fun f => f.name)).zip values := by
  induction schema generalizing values with
  | nil => intro acc _; simp
  | cons f fs ih =>
      cases values with
      | nil => intro acc _; simp
      | cons v vs =>
          intro acc hacc
          simp only [List.map_cons, List.nodup_cons, List.mem_map] at hnd
          simp only [List.zip_cons_cons, List.foldl_cons, List.map_cons]
          rw [dictInsert_new v (fun p hp => hacc p hp f (by simp))]
          rw [ih vs hnd.2 (acc ++ [(f.name, v)]) ?fresh]
          · simp
          case fresh =>
            intro p hp g hg
            rcases List.mem_append.mp hp with hp | hp
            · exact hacc p hp g (by simp [hg])
            · have hpf : p = (f.name, v) := by simpa using hp
              subst hpf
              intro hcon
              exact hnd.1 ⟨g, hg, hcon.symm⟩

theorem buildRecord_eq_zip {schema : List Field} (values : List PyObj)
    (hnd : (schema.map (fun f => f.name)).Nodup) :
    buildRecord schema values = (schema.map (fun f => f.name)).zip values := by
  simpa [buildRecord] using buildRecord_gen schema values hnd [] (by simp)

/-- A nonempty schema of known field types has a positive record
width. -/
theorem recordSizeOf_pos {schema : List Field} (hv : validSchema schema = true)
    (hne : schema ≠ []) : 0 < recordSizeOf schema := by
  rw [recordSizeOf_valid hv]
  cases schema with
  | nil => exact absurd rfl hne
  | cons f fs =>
      simp only [validSchema, List.all_cons, Bool.and_eq_true, decide_eq_true_eq] at hv
      simp only [List.map_cons, List.sum_cons]
      have : 0 < codeWidth f.type := by
        rcases hv.1 with h | h | h | h <;> simp [codeWidth, h]
      omega

/-! ## The handle and its operations

An `HState` is the Python-side state of one `HOCDB` object: the schema
captured at `__init__` and whether `self.handle` is still non-null.
Each method takes the C engine's answer as an argument (the engine is
not in the repository) and returns, besides its Python result, the list
of engine calls it performed. -/

structure HState where
  schema : List Field
  opened : Bool
deriving DecidableEq, Repr

/-- `HOCDBFilter`: the ctypes struct passed to `hocdb_query`.  The
array is zero-initialized; each branch then sets `field_index`, `type`
and exactly one payload slot.  `val_f64` is an IEEE-754 bit pattern. -/
structure CFilter where
  field_index : Nat
  type : Nat
  val_i64 : Int
  val_f64 : Nat
  val_u64 : Nat
  val_string : String
  val_bool : Bool
deriving DecidableEq, Repr

/-- A zero-initialized filter slot with its field index set. -/
def blankFilter (idx : Nat) : CFilter :=
  { field_index := idx, type := 0, val_i64 := 0, val_f64 := 0, val_u64 := 0
    val_string := "", val_bool := false }

/-- The `isinstance` chain that tags a filter value
(`HOCDB.query`, both the convenient and the legacy branch are
identical here).  In CPython `bool` is a subclass of `int`, so
`isinstance(val, int)` also matches `True`/`False` and the later
`elif isinstance(val, bool)` branch (which would set `type = 6` and
`val_bool`) is unreachable: a bool is tagged `1` with `val_i64` 0/1. -/
def encodeFilterValue (idx : Nat) (val : PyObj) : Except String CFilter :=
  match val with
  | .i v => .ok { blankFilter idx with type := 1, val_i64 := v }
  | .b v => .ok { blankFilter idx with type := 1, val_i64 := if v then 1 else 0 }
  | .f bits => .ok { blankFilter idx with type := 2, val_f64 := bits }
  | .str s => .ok { blankFilter idx with type := 5, val_string := s }
  | _ => .error "Unsupported value type for filter"

/-- `self._field_map[name]`: position and type of the field with that
name; built by a dict comprehension, so for duplicate names the last
field wins. -/
def fieldMapLookup (schema : List Field) (name : String) : Option (Nat × Nat) :=
  ((schema.enum.filter (fun p => p.2.name = name)).getLast?).map
    (fun p => (p.1, p.2.2))

/-- One filter in the convenient `{ "field": value }` syntax: resolve
the name through `_field_map` (unknown names raise), then tag the
value. -/
def encodeFilter (schema : List Field) (name : String) (val : PyObj) :
    Except String CFilter :=
  match fieldMapLookup schema name with
  | none => .error ("Unknown field in filter: " ++ name)
  | some (idx, _) => encodeFilterValue idx val

def encodeFilters (schema : List Field) :
    List (String × PyObj) → Except String (List CFilter)
  | [] => .ok []
  | (name, val) :: rest =>
      match encodeFilter schema name val with
      | .error e => .error e
      | .ok c =>
          match encodeFilters schema rest with
          | .error e => .error e
          | .ok cs => .ok (c :: cs)

/-- The calls a binding method makes into the C library. -/
inductive EngineCall where
  | append (bytes : List Nat)
  | flush
  | load
  | query (startTs endTs : Int) (filters : List CFilter)
  | free
  | getStats (startTs endTs : Int) (fieldIndex : Nat)
  | getLatest (fieldIndex : Nat)
  | close
deriving DecidableEq, Repr

/-- Number of `hocdb_free` calls in a trace. -/
def countFree (tr : List EngineCall) : Nat :=
  tr.countP fun c => match c with | .free => true | _ => false

/-- Message of the `RuntimeError` every method raises when
`self.handle` is falsy. -/
def notInitMsg : String := "Database not initialized"

/-! ### append -/

/-- Argument normalization at the top of `HOCDB.append`: a single
list/tuple is taken as the value sequence, a single dict or attribute
object is unpacked in schema order (raising on the first missing
name), anything else leaves `values = args` unchanged. -/
def extractByName (schema : List Field) (kvs : List (String × PyObj))
    (msg : String) : Except String (List PyObj) :=
  match schema with
  | [] => .ok []
  | f :: fs =>
      match (kvs.find? (fun p => p.1 = f.name)).map (fun p => p.2) with
      | some v =>
          match extractByName fs kvs msg with
          | .error e => .error e
          | .ok rest => .ok (v :: rest)
      | none => .error (msg ++ f.name)

def normalizeArgs (schema : List Field) (args : List PyObj) :
    Except String (List PyObj) :=
  match args with
  | [.list vs] => .ok vs
  | [.tuple vs] => .ok vs
  | [.dict kvs] => extractByName schema kvs "Missing field in dictionary: "
  | [.obj kvs] => extractByName schema kvs "Missing attribute in object: "
  | _ => .ok args

/-- `struct.pack(self._struct_fmt, *values)`, one field: unlike
`create_record_bytes` there is no `int()`/`float()` coercion — a
non-integer for `q`/`Q` raises `struct.error` (bools pass, being
ints), `?` packs any object's truthiness.  An int argument to `d`
would be converted to the nearest double; that rounding is outside the
bit-pattern float model and no claim exercises it, so it maps to a
model error. -/
def structPackField (t : Nat) (v : PyObj) : Except String (List Nat) :=
  if t = 1 then
    match v with
    | .i n =>
        if -(2 ^ 63 : Int) ≤ n ∧ n < 2 ^ 63 then .ok (leBytes 8 (n % (2 ^ 64 : Int)).toNat)
        else .error "argument out of range"
    | .b v => .ok (leBytes 8 (if v then 1 else 0))
    | _ => .error "required argument is not an integer"
  else if t = 2 then
    match v with
    | .f bits => .ok (leBytes 8 bits)
    | .b v => .ok (leBytes 8 (if v then oneBits else 0))
    | _ => .error "unmodelled conversion to double"
  else if t = 3 then
    match v with
    | .i n =>
        if 0 ≤ n ∧ n < 2 ^ 64 then .ok (leBytes 8 n.toNat)
        else .error "argument out of range"
    | .b v => .ok (leBytes 8 (if v then 1 else 0))
    | _ => .error "required argument is not an integer"
  else if t = 6 then .ok [if v.truthy then 1 else 0]
  else .error "bad char in struct format"

def packRecord : List Field → List PyObj → Except String (List Nat)
  | [], _ => .ok []
  | _ :: _, [] => .ok []
  | f :: fs, v :: vs =>
      match structPackField f.type v with
      | .error e => .error e
      | .ok b =>
          match packRecord fs vs with
          | .error e => .error e
          | .ok rest => .ok (b ++ rest)

/-- Everything `HOCDB.append` does before calling the engine:
normalize the arguments, enforce the strict arity check (the stored
`auto_increment` flag is not consulted — the source keeps the strict
check and documents it), then pack; a `struct.error` is re-raised as
`ValueError("Failed to pack record: ...")`. -/
def preparedRecord (schema : List Field) (args : List PyObj) :
    Except String (List Nat) :=
  match normalizeArgs schema args with
  | .error e => .error e
  | .ok values =>
      if values.length ≠ schema.length then
        .error ("Expected " ++ toString schema.length ++ " arguments, got "
          ++ toString values.length)
      else
        match packRecord schema values with
        | .ok bs => .ok bs
        | .error e => .error ("Failed to pack record: " ++ e)

/-- `HOCDB.append`: guard on the handle, prepare the record, call
`hocdb_append` and surface its status (`-2` and `-3` raise, `0` is
`True`, anything else `False`). -/
def HOCDB.append (h : HState) (engineStatus : Int) (args : List PyObj) :
    Except String Bool × List EngineCall :=
  if h.opened = false then (.error notInitMsg, [])
  else
    match preparedRecord h.schema args with
    | .error e => (.error e, [])
    | .ok bytes =>
        ((if engineStatus = -2 then .error "Append failed: Invalid Record Size"
          else if engineStatus = -3 then
            .error "Append failed: Timestamp Not Monotonic - timestamps must be strictly increasing"
          else .ok (engineStatus == 0)),
         [.append bytes])

/-! ### flush, load, query -/

def HOCDB.flush (h : HState) (engineStatus : Int) :
    Except String Bool × List EngineCall :=
  if h.opened = false then (.error notInitMsg, [])
  else (.ok (engineStatus == 0), [.flush])

/-- `HOCDB.load`: `hocdb_load` returns a buffer (`none` models a null
pointer); a null result yields `[]` with no `free`; otherwise the bytes
are decoded in a `try` block whose `finally` frees the buffer exactly
once, also when decoding raises. -/
def HOCDB.load (h : HState) (engineResult : Option (List Nat)) :
    Except String (List (List (String × PyObj))) × List EngineCall :=
  if h.opened = false then (.error notInitMsg, [])
  else
    match engineResult with
    | none => (.ok [], [.load])
    | some data => (unpack_records h.schema data, [.load, .free])

/-- `HOCDB.query`: filters are marshalled first (raising before any
engine call), then `hocdb_query` runs and its buffer is handled exactly
like `load`'s. -/
def HOCDB.query (h : HState) (startTs endTs : Int)
    (filters : List (String × PyObj)) (engineResult : Option (List Nat)) :
    Except String (List (List (String × PyObj))) × List EngineCall :=
  if h.opened = false then (.error notInitMsg, [])
  else
    match encodeFilters h.schema filters with
    | .error e => (.error e, [])
    | .ok cf =>
        match engineResult with
        | none => (.ok [], [.query startTs endTs cf])
        | some data =>
            (unpack_records h.schema data, [.query startTs endTs cf, .free])

/-! ### get_stats, get_latest, close -/

/-- A field referenced by index or by name. -/
def FieldRef : Type := Sum Nat String

/-- `HOCDB._resolve_field_index`; the trailing "must be int or str"
branch cannot be reached in this typed model. -/
def _resolve_field_index (schema : List Field) : FieldRef → Except String Nat
  | .inl i => .ok i
  | .inr name =>
      match fieldMapLookup schema name with
      | some (idx, _) => .ok idx
      | none => .error ("Unknown field: " ++ name)

/-- The out-struct of `hocdb_get_stats`; the four doubles are IEEE-754
bit patterns. -/
structure Stats where
  min : Nat
  max : Nat
  sum : Nat
  count : Nat
  mean : Nat
deriving DecidableEq, Repr

def HOCDB.get_stats (h : HState) (startTs endTs : Int) (field : FieldRef)
    (engine : Int × Stats) : Except String Stats × List EngineCall :=
  if h.opened = false then (.error notInitMsg, [])
  else
    match _resolve_field_index h.schema field with
    | .error e => (.error e, [])
    | .ok idx =>
        if engine.1 ≠ 0 then (.error "get_stats failed", [.getStats startTs endTs idx])
        else (.ok engine.2, [.getStats startTs endTs idx])

def HOCDB.get_latest (h : HState) (field : FieldRef)
    (engine : Int × Nat × Int) : Except String (Nat × Int) × List EngineCall :=
  if h.opened = false then (.error notInitMsg, [])
  else
    match _resolve_field_index h.schema field with
    | .error e => (.error e, [])
    | .ok idx =>
        if engine.1 ≠ 0 then (.error "get_latest failed", [.getLatest idx])
        else (.ok (engine.2.1, engine.2.2), [.getLatest idx])

/-- `HOCDB.close`: `hocdb_close` runs only when the handle is live,
then `self.handle = None`; on an already-closed handle nothing at all
happens. -/
def HOCDB.close (h : HState) : HState × List EngineCall :=
  if h.opened then ({ h with opened := false }, [.close]) else (h, [])

/-! ## Helper lemmas about the lifecycle -/

theorem close_opened_false (h : HState) : (HOCDB.close h).1.opened = false := by
  rw [HOCDB.close]
  split
  · rfl
  · rename_i ho
    simpa using ho

/-! ## Demo handle used by the witnesses -/

def demoSchema : List Field := [⟨"timestamp", 1⟩, ⟨"price", 2⟩]

def demoH : HState := ⟨demoSchema, true⟩

/-! ## Claims -/

/-- C3: the claim says a Python `bool` filter value is tagged Bool (6)
and stored in `val_bool`.  The code cannot do that: `bool` is a
subclass of `int` in CPython, so `isinstance(val, int)` matches first
and `True` is tagged I64 (1) with `val_i64 = 1`; the `elif
isinstance(val, bool)` branch of `HOCDB.query` is unreachable.  This
theorem evaluates the filter marshalling at the failing input. -/
theorem C3_bool_filter_tagged_i64 :
    encodeFilterValue 2 (.b true) =
      .ok { field_index := 2, type := 1, val_i64 := 1, val_f64 := 0,
            val_u64 := 0, val_string := "", val_bool := false } := rfl

/-- C4: after `close()`, the handle is marked closed and every
subsequent `append`, `flush`, `load`, `query`, `get_stats` or
`get_latest` raises `RuntimeError("Database not initialized")` without
making any engine call. -/
theorem C4_use_after_close (h : HState) (st : Int) (args : List PyObj)
    (er er' : Option (List Nat)) (s e : Int) (fs : List (String × PyObj))
    (fld fld' : FieldRef) (eng : Int × Stats) (engL : Int × Nat × Int) :
    (HOCDB.close h).1.opened = false ∧
    HOCDB.append (HOCDB.close h).1 st args = (.error notInitMsg, []) ∧
    HOCDB.flush (HOCDB.close h).1 st = (.error notInitMsg, []) ∧
    HOCDB.load (HOCDB.close h).1 er = (.error notInitMsg, []) ∧
    HOCDB.query (HOCDB.close h).1 s e fs er' = (.error notInitMsg, []) ∧
    HOCDB.get_stats (HOCDB.close h).1 s e fld eng = (.error notInitMsg, []) ∧
    HOCDB.get_latest (HOCDB.close h).1 fld' engL = (.error notInitMsg, []) := by
  have hc := close_opened_false h
  refine ⟨hc, ?_, ?_, ?_, ?_, ?_, ?_⟩ <;>
    simp [HOCDB.append, HOCDB.flush, HOCDB.load, HOCDB.query,
      HOCDB.get_stats, HOCDB.get_latest, hc]

/-- C8: a second `close()` on an already-closed handle performs no
engine call and leaves the state untouched; the first close marks the
handle closed for good. -/
theorem C8_close_idempotent (h : HState) :
    (HOCDB.close h).1.opened = false ∧
    HOCDB.close (HOCDB.close h).1 = ((HOCDB.close h).1, []) := by
  have hc := close_opened_false h
  refine ⟨hc, ?_⟩
  conv_lhs => rw [HOCDB.close]
  rw [hc]
  simp

/-- Per-field widths as the claim states them: 8 bytes for `Int64`,
`Float64` and `UInt64`, 1 byte for `Bool`. -/
def specFieldWidth (t : Nat) : Nat :=
  if t = 1 then 8 else if t = 2 then 8 else if t = 3 then 8
  else if t = 6 then 1 else 0

theorem codeWidth_eq_spec (t : Nat) : codeWidth t = specFieldWidth t := by
  unfold codeWidth specFieldWidth
  split_ifs <;> omega

theorem buildFmtChars_ok_valid {schema : List Field} {cs : List Char}
    (h : buildFmtChars schema = .ok cs) : validSchema schema = true := by
  induction schema generalizing cs with
  | nil => rfl
  | cons f fs ih =>
      rw [buildFmtChars] at h
      simp only [validSchema, List.all_cons, Bool.and_eq_true, decide_eq_true_eq]
      rcases hfc : fmtCharOfCode f.type with e | c
      · rw [hfc] at h
        simp at h
      · rw [hfc] at h
        rcases hrest : buildFmtChars fs with e | cs'
        · rw [hrest] at h
          simp at h
        · refine ⟨?_, ih hrest⟩
          rw [fmtCharOfCode] at hfc
          by_contra hk
          push_neg at hk
          rw [if_neg hk.1, if_neg hk.2.1, if_neg hk.2.2.1, if_neg hk.2.2.2] at hfc
          exact Except.noConfusion hfc

/-- C7: for every schema the format built at handle construction has
`struct.calcsize` equal to the sum of the claim's per-field widths
(8, 8, 8, 1) — the fields packed contiguously in declaration order with
no padding under the `<` (little-endian) marker — and a schema with any
other field type is rejected with a `ValueError`. -/
theorem C7_record_width (schema : List Field) :
    (∀ fmt, _build_struct_format schema = .ok fmt →
      calcsize fmt = (schema.map (fun f => specFieldWidth f.type)).sum) ∧
    ((∃ f ∈ schema, ¬(f.type = 1 ∨ f.type = 2 ∨ f.type = 3 ∨ f.type = 6)) →
      ∃ e, _build_struct_format schema = .error e) := by
  constructor
  · intro fmt hfmt
    rw [_build_struct_format] at hfmt
    rcases hb : buildFmtChars schema with e | cs
    · rw [hb] at hfmt; exact absurd hfmt (by simp [Except.map])
    · rw [hb] at hfmt
      simp only [Except.map, Except.ok.injEq] at hfmt
      subst hfmt
      have hv := buildFmtChars_ok_valid hb
      obtain ⟨cs', hcs', hmap⟩ := buildFmtChars_valid hv
      rw [hb] at hcs'
      injection hcs' with hcs'
      subst hcs'
      rw [calcsize, List.map_cons, List.sum_cons, charSize_marker, Nat.zero_add, hmap]
      have hptw : List.map (fun f => codeWidth f.type) schema
          = List.map (fun f => specFieldWidth f.type) schema :=
        List.map_congr_left fun f _ => codeWidth_eq_spec f.type
      rw [hptw]
  · intro hbad
    obtain ⟨f, hf, hfbad⟩ := hbad
    rw [_build_struct_format]
    suffices hsuf : ∃ e, buildFmtChars schema = .error e by
      obtain ⟨e, he⟩ := hsuf
      exact ⟨e, by rw [he]; rfl⟩
    induction schema with
    | nil => exact absurd hf (List.not_mem_nil f)
    | cons g gs ih =>
        rcases List.mem_cons.mp hf with hfg | hfg
        · subst hfg
          refine ⟨"Unsupported field type: " ++ toString f.type, ?_⟩
          rw [buildFmtChars, fmtCharOfCode]
          push_neg at hfbad
          rw [if_neg hfbad.1, if_neg hfbad.2.1, if_neg hfbad.2.2.1,
            if_neg hfbad.2.2.2]
        · rcases hfc : fmtCharOfCode g.type with e | c
          · exact ⟨e, by rw [buildFmtChars, hfc]⟩
          · obtain ⟨e, he⟩ := ih hfg
            exact ⟨e, by rw [buildFmtChars, hfc, he]⟩

/-- C7 witness: a schema with all four known types has record width
`8 + 8 + 8 + 1 = 25`, and a schema with the unknown type code 4 is
rejected. -/
theorem C7_record_width_witness :
    calcsize ['<', 'q', 'd', 'Q', '?'] = 25 ∧
    (∃ e, _build_struct_format [⟨"x", 4⟩] = .error e) := by
  constructor
  · have h := (C7_record_width
      [⟨"ts", 1⟩, ⟨"p", 2⟩, ⟨"q", 3⟩, ⟨"b", 6⟩]).1 ['<', 'q', 'd', 'Q', '?'] rfl
    simpa [specFieldWidth] using h
  · exact (C7_record_width [⟨"x", 4⟩]).2 ⟨⟨"x", 4⟩, by simp, by decide⟩

/-- C1: whenever `append` reaches the engine (the handle is open and
the record was normalized and packed), the engine status is surfaced
faithfully: `0` returns `True`; `-2` raises the invalid-record-size
`ValueError`; `-3` raises the timestamp-monotonicity `ValueError`; any
other status returns `False`; and a `True` result implies status `0`. -/
theorem C1_append_status_surfaced (h : HState) (args : List PyObj)
    (bytes : List Nat) (status : Int) (hopen : h.opened = true)
    (hprep : preparedRecord h.schema args = .ok bytes) :
    (status = 0 → HOCDB.append h status args = (.ok true, [.append bytes])) ∧
    (status = -2 → HOCDB.append h status args =
      (.error "Append failed: Invalid Record Size", [.append bytes])) ∧
    (status = -3 → HOCDB.append h status args =
      (.error "Append failed: Timestamp Not Monotonic - timestamps must be strictly increasing",
        [.append bytes])) ∧
    (status ≠ 0 → status ≠ -2 → status ≠ -3 →
      HOCDB.append h status args = (.ok false, [.append bytes])) ∧
    (∀ b : Bool, HOCDB.append h status args = (.ok b, [.append bytes]) →
      b = true → status = 0) := by
  have hbase : HOCDB.append h status args =
      ((if status = -2 then .error "Append failed: Invalid Record Size"
        else if status = -3 then
          .error "Append failed: Timestamp Not Monotonic - timestamps must be strictly increasing"
        else .ok (status == 0)), [.append bytes]) := by
    rw [HOCDB.append, hopen, if_neg (by simp), hprep]
  refine ⟨?_, ?_, ?_, ?_, ?_⟩
  · intro h0
    subst h0
    rw [hbase]
    norm_num
  · intro h2
    subst h2
    rw [hbase]
    norm_num
  · intro h3
    subst h3
    rw [hbase]
    norm_num
  · intro hn0 hn2 hn3
    rw [hbase, if_neg hn2, if_neg hn3]
    simp [beq_eq_false_iff_ne, hn0]
  · intro b heq hb
    subst hb
    rw [hbase] at heq
    split at heq
    · simp at heq
    · split at heq
      · simp at heq
      · simp only [Prod.mk.injEq, Except.ok.injEq, and_true] at heq
        exact beq_iff_eq.mp heq

/-- C1 witness: on the demo handle with a well-formed record, status
`-2` surfaces as the invalid-record-size `ValueError`. -/
theorem C1_append_status_surfaced_witness :
    HOCDB.append demoH (-2) [.i 5, .f 7] =
      (.error "Append failed: Invalid Record Size",
        [.append [5, 0, 0, 0, 0, 0, 0, 0, 7, 0, 0, 0, 0, 0, 0, 0]]) :=
  (C1_append_status_surfaced demoH [.i 5, .f 7]
    [5, 0, 0, 0, 0, 0, 0, 0, 7, 0, 0, 0, 0, 0, 0, 0] (-2) rfl (by rfl)).2.1 rfl

theorem extractByName_missing {schema : List Field} {kvs : List (String × PyObj)}
    (msg : String)
    (hmiss : ∃ f ∈ schema, kvs.find? (fun p => p.1 = f.name) = none) :
    ∃ e, extractByName schema kvs msg = .error e := by
  induction schema with
  | nil => simp at hmiss
  | cons g gs ih =>
      rcases hg : kvs.find? (fun p => p.1 = g.name) with _ | pv
      · exact ⟨msg ++ g.name, by rw [extractByName, hg]; rfl⟩
      · obtain ⟨f, hf, hfnone⟩ := hmiss
        rcases List.mem_cons.mp hf with rfl | hf'
        · rw [hg] at hfnone
          exact absurd hfnone (by simp)
        · obtain ⟨e, he⟩ := ih ⟨f, hf', hfnone⟩
          exact ⟨e, by rw [extractByName, hg]; simp only [Option.map_some']; rw [he]⟩

/-- C10: `append`'s arity check is strict and runs before any engine
call — a normalized value sequence of the wrong length (including one
fewer value with `auto_increment` on: the binding never consults that
flag, the source keeps the strict check) raises `ValueError` with an
empty engine trace, and a dict argument missing a schema field name
raises `ValueError` with an empty engine trace. -/
theorem C10_strict_append_arity (h : HState) (status : Int) (args : List PyObj)
    (hopen : h.opened = true) :
    (∀ vs, normalizeArgs h.schema args = .ok vs → vs.length ≠ h.schema.length →
      HOCDB.append h status args =
        (.error ("Expected " ++ toString h.schema.length ++ " arguments, got "
          ++ toString vs.length), [])) ∧
    (∀ e, normalizeArgs h.schema args = .error e →
      HOCDB.append h status args = (.error e, [])) ∧
    (∀ kvs, args = [PyObj.dict kvs] →
      (∃ f ∈ h.schema, kvs.find? (fun p => p.1 = f.name) = none) →
      ∃ e, HOCDB.append h status args = (.error e, [])) := by
  have hguard : ∀ r : Except String (List Nat),
      preparedRecord h.schema args = r →
      HOCDB.append h status args =
        (match r with
         | .error e => (.error e, [])
         | .ok bytes =>
             ((if status = -2 then .error "Append failed: Invalid Record Size"
               else if status = -3 then
                 .error "Append failed: Timestamp Not Monotonic - timestamps must be strictly increasing"
               else .ok (status == 0)), [.append bytes])) := by
    intro r hr
    rw [HOCDB.append, hopen, if_neg (by simp), hr]
  refine ⟨?_, ?_, ?_⟩
  · intro vs hn hlen
    have hprep : preparedRecord h.schema args =
        .error ("Expected " ++ toString h.schema.length ++ " arguments, got "
          ++ toString vs.length) := by
      simp only [preparedRecord, hn]
      rw [if_pos hlen]
    exact hguard _ hprep
  · intro e hn
    have hprep : preparedRecord h.schema args = .error e := by
      simp only [preparedRecord, hn]
    exact hguard _ hprep
  · intro kvs hargs hmiss
    subst hargs
    obtain ⟨e, he⟩ := extractByName_missing "Missing field in dictionary: " hmiss
    have hn : normalizeArgs h.schema [PyObj.dict kvs] = .error e := by
      rw [normalizeArgs]; exact he
    refine ⟨e, ?_⟩
    have hprep : preparedRecord h.schema [PyObj.dict kvs] = .error e := by
      simp only [preparedRecord, hn]
    exact hguard _ hprep

/-- C10 witness: on the two-field demo schema, one missing positional
value — exactly the shape of omitting the timestamp placeholder — and a
dict missing the `price` field both raise before any engine call. -/
theorem C10_strict_append_arity_witness :
    HOCDB.append demoH 0 [.i 5] = (.error "Expected 2 arguments, got 1", []) ∧
    (∃ e, HOCDB.append demoH 0 [.dict [("timestamp", .i 1)]] = (.error e, [])) := by
  constructor
  · exact (C10_strict_append_arity demoH 0 [.i 5] rfl).1 [.i 5] rfl (by decide)
  · exact (C10_strict_append_arity demoH 0 [.dict [("timestamp", .i 1)]] rfl).2.2
      [("timestamp", .i 1)] rfl ⟨⟨"price", 2⟩, by decide, by rfl⟩

/-- C9: whenever `load` or `query` receives a buffer from the engine,
the trace contains exactly one `free`; a null result is never freed.
The count is independent of whether decoding succeeds or raises (the
`finally` block runs either way). -/
theorem C9_buffer_freed_exactly_once (h : HState) (er : Option (List Nat))
    (s e : Int) (fs : List (String × PyObj)) (cf : List CFilter)
    (hopen : h.opened = true) (hf : encodeFilters h.schema fs = .ok cf) :
    countFree (HOCDB.load h er).2 =
      (match er with | some _ => 1 | none => 0) ∧
    countFree (HOCDB.query h s e fs er).2 =
      (match er with | some _ => 1 | none => 0) := by
  constructor
  · rw [HOCDB.load.eq_def, hopen, if_neg (by simp)]
    cases er <;> rfl
  · rw [HOCDB.query, hopen, if_neg (by simp), hf]
    cases er <;> rfl

/-- C9 witness: a three-byte buffer (not even a whole record) is freed
exactly once by both `load` and `query` on the demo handle. -/
theorem C9_buffer_freed_exactly_once_witness :
    countFree (HOCDB.load demoH (some [1, 2, 3])).2 = 1 ∧
    countFree (HOCDB.query demoH 0 10 [] (some [1, 2, 3])).2 = 1 := by
  have h := C9_buffer_freed_exactly_once demoH (some [1, 2, 3]) 0 10 [] [] rfl rfl
  exact ⟨h.1, h.2⟩

/-- C5: `query` never fails for "no match": a null engine result gives
`[]` (and no `free`), a zero-length buffer gives `[]`, and a non-null
buffer decodes to exactly one record per `record_width`-sized chunk in
buffer order. -/
theorem C5_query_no_match (h : HState) (s e : Int)
    (fs : List (String × PyObj)) (cf : List CFilter)
    (hopen : h.opened = true) (hf : encodeFilters h.schema fs = .ok cf)
    (hrs : 0 < recordSizeOf h.schema) :
    HOCDB.query h s e fs none = (.ok [], [.query s e cf]) ∧
    HOCDB.query h s e fs (some []) = (.ok [], [.query s e cf, .free]) ∧
    (∀ data, HOCDB.query h s e fs (some data) =
      (.ok (chunkedRecords h.schema data), [.query s e cf, .free])) := by
  refine ⟨?_, ?_, ?_⟩
  · rw [HOCDB.query, hopen, if_neg (by simp), hf]
  · rw [HOCDB.query, hopen, if_neg (by simp), hf]
    show (unpack_records h.schema [], [EngineCall.query s e cf, EngineCall.free]) = _
    rw [unpack_records_eq_chunked hrs]
    simp [chunkedRecords, Nat.zero_div]
  · intro data
    rw [HOCDB.query, hopen, if_neg (by simp), hf]
    show (unpack_records h.schema data, [EngineCall.query s e cf, EngineCall.free]) = _
    rw [unpack_records_eq_chunked hrs]

/-- C5 witness: on the demo handle a null result and an empty buffer
both yield the empty record list without an exception. -/
theorem C5_query_no_match_witness :
    HOCDB.query demoH 0 100 [] none = (.ok [], [.query 0 100 []]) ∧
    HOCDB.query demoH 0 100 [] (some []) = (.ok [], [.query 0 100 [], .free]) := by
  have h := C5_query_no_match demoH 0 100 [] [] rfl rfl (by decide)
  exact ⟨h.1, h.2.1⟩

/-- C6: for a handle over a nonempty schema, the bulk decoder returns
exactly `⌊len / record_width⌋` records, decoding consecutive
`record_width`-sized chunks from offset 0; a shorter final chunk is
dropped and no exception is raised for any input length. -/
theorem C6_bulk_decode_partial_chunk (schema : List Field) (data : List Nat)
    (hrs : 0 < recordSizeOf schema) :
    unpack_records schema data = .ok (chunkedRecords schema data) ∧
    (chunkedRecords schema data).length = data.length / recordSizeOf schema :=
  ⟨unpack_records_eq_chunked hrs data, by simp [chunkedRecords]⟩

/-- C6 witness: 35 bytes against the 16-byte demo record width decode
to exactly 2 records, the 3 trailing bytes being dropped. -/
theorem C6_bulk_decode_partial_chunk_witness :
    unpack_records demoSchema (List.range 35)
      = .ok (chunkedRecords demoSchema (List.range 35)) ∧
    (chunkedRecords demoSchema (List.range 35)).length = 2 := by
  have h := C6_bulk_decode_partial_chunk demoSchema (List.range 35) (by decide)
  refine ⟨h.1, ?_⟩
  rw [h.2]
  rfl

/-- C2: the codec round trip.  For a nonempty schema over the four
supported types with distinct field names and a value tuple of matching
length whose values are representable in those types,
`create_record_bytes` succeeds and the bulk decoder returns exactly one
record holding those values field by field in declaration order. -/
theorem C2_codec_round_trip (schema : List Field) (values : List PyObj)
    (hwt : wellTypedList schema values = true) (hne : schema ≠ [])
    (hnd : (schema.map (fun f => f.name)).Nodup) :
    ∃ bs, create_record_bytes schema values = .ok bs ∧
      unpack_records schema bs = .ok [(schema.map (fun f => f.name)).zip values] := by
  have hlen := wellTypedList_length hwt
  have hv := wellTypedList_valid hwt
  obtain ⟨bs, hpack, hlen2, hdec⟩ := packFields_round_trip hwt
  have hrs : recordSizeOf schema = bs.length := by
    rw [recordSizeOf_valid hv, hlen2]
  have hpos : 0 < recordSizeOf schema := recordSizeOf_pos hv hne
  refine ⟨bs, ?_, ?_⟩
  · rw [create_record_bytes, if_neg (by omega), hpack]
  · rw [unpack_records_eq_chunked hpos, chunkedRecords]
    have hdiv : bs.length / recordSizeOf schema = 1 := by
      rw [hrs]
      exact Nat.div_self (hrs ▸ hpos)
    rw [hdiv, show List.range 1 = [0] from rfl, List.map_cons, List.map_nil,
      Nat.zero_mul, List.drop_zero, hrs, List.take_length]
    rw [decodeRecord, hdec, buildRecord_eq_zip values hnd]

/-- Schema and values exercising all four field types for the C2
witness. -/
def wSchema : List Field := [⟨"ts", 1⟩, ⟨"price", 2⟩, ⟨"qty", 3⟩, ⟨"flag", 6⟩]

def wVals : List PyObj := [.i (-2), .f 1, .i 3, .b true]

/-- C2 witness: a concrete record with an `Int64`, a `Float64`, a
`UInt64` and a `Bool` field survives the encode/decode round trip. -/
theorem C2_codec_round_trip_witness :
    ∃ bs, create_record_bytes wSchema wVals = .ok bs ∧
      unpack_records wSchema bs
        = .ok [(wSchema.map (fun f => f.name)).zip wVals] :=
  C2_codec_round_trip wSchema wVals (by decide) (by decide) (by decide)

end Hocdb
